import Mathlib

/-!
Shallow embedding of the Hotel-Reservation-Prediction pipeline
(`src/data_ingestion.py`, `src/data_preprocessing.py`, `src/model_training.py`,
`src/custom_exception.py`).

Tables are modelled as a header row (column names) plus a list of rows of
cell values.  Machine floats never decide any verified property here: the
`log1p` transform is kept symbolic (a constructor wrapping the cell), and
the two float-valued external measurements (pandas skewness and the random
forest importances) are abstracted as oracle functions into the rationals.
Fallible pandas operations return `Except PyErr`; the repository wraps every
stage failure in its `CustomException`, modelled by the `PyErr.custom`
constructor carrying the static wrapper message and the cause.
-/

/-- A cell value: integers, strings, and the symbolic result of applying the
numpy `log1p` transform to a cell. -/
inductive Val where
  | vint : Int → Val
  | vstr : String → Val
  | log1p : Val → Val
deriving DecidableEq

/-- Fixed total order on cell values, standing in for the ordering numpy
`unique` uses when the label encoder sorts the distinct class values. -/
def Val.le : Val → Val → Bool
  | .vint i, .vint j => decide (i ≤ j)
  | .vint _, _ => true
  | .vstr _, .vint _ => false
  | .vstr a, .vstr b => decide (a ≤ b)
  | .vstr _, .log1p _ => true
  | .log1p v, .log1p w => Val.le v w
  | .log1p _, _ => false

/-- Removes later duplicates from a list, keeping the first occurrence of
each element; `seen` accumulates the elements already emitted. -/
def dedupAux {α : Type} [DecidableEq α] : List α → List α → List α
  | [], _ => []
  | a :: as, seen =>
    if a ∈ seen then dedupAux as seen else a :: dedupAux as (a :: seen)

/-- Keep-first deduplication, the semantics of pandas
`drop_duplicates(keep='first')` and of the distinct-value extraction. -/
def dedupKeepFirst {α : Type} [DecidableEq α] (l : List α) : List α :=
  dedupAux l []

/-- A pandas DataFrame: named columns and rows of cells. -/
structure Table where
  cols : List String
  rows : List (List Val)
deriving DecidableEq

/-- Python exceptions relevant to the pipeline.  `custom` models the
repository `CustomException(message, cause)` wrapper from
`src/custom_exception.py`; `keyError` and `valueError` model the pandas,
sklearn and imblearn errors the stages can raise. -/
inductive PyErr where
  | keyError : String → PyErr
  | valueError : String → PyErr
  | custom : String → PyErr → PyErr
deriving DecidableEq

deriving instance DecidableEq for Except

/-- Well-formed rows: every row has one cell per column. -/
def Table.wfRows (t : Table) : Prop := ∀ r ∈ t.rows, r.length = t.cols.length

instance (t : Table) : Decidable t.wfRows := by
  unfold Table.wfRows; infer_instance

/-- Column read `df[c]` as a total function (callers establish presence); a
missing column yields the empty list. -/
def Table.colD (t : Table) (c : String) : List Val :=
  if c ∈ t.cols then t.rows.map (fun r => r.getD (t.cols.indexOf c) (Val.vint 0))
  else []

/-- Models `df.drop(columns=[c])`: removes the labelled column, raising
`KeyError` when it is absent. -/
def Table.dropColumn (t : Table) (c : String) : Except PyErr Table :=
  if c ∈ t.cols then
    .ok ⟨t.cols.eraseIdx (t.cols.indexOf c),
         t.rows.map (fun r => r.eraseIdx (t.cols.indexOf c))⟩
  else .error (.keyError c)

/-- Models `df.drop_duplicates()`: keeps the first occurrence of each row. -/
def Table.dropDuplicates (t : Table) : Table :=
  ⟨t.cols, dedupKeepFirst t.rows⟩

/-- Models the column assignment `df[c] = f(df[c])`: reads the column
(`KeyError` when absent) and rewrites each cell from the whole old column
and the old cell. -/
def Table.transformCol (t : Table) (c : String) (f : List Val → Val → Val) :
    Except PyErr Table :=
  if c ∈ t.cols then
    .ok ⟨t.cols,
         t.rows.map (fun r =>
           r.set (t.cols.indexOf c)
             (f (t.colD c) (r.getD (t.cols.indexOf c) (Val.vint 0))))⟩
  else .error (.keyError c)

/-- Models `df[names]`: projects onto the listed columns in the listed
order, raising `KeyError` when one is missing. -/
def Table.select (t : Table) (names : List String) : Except PyErr Table :=
  if ∀ c ∈ names, c ∈ t.cols then
    .ok ⟨names,
         t.rows.map (fun r =>
           names.map (fun c => r.getD (t.cols.indexOf c) (Val.vint 0)))⟩
  else .error (.keyError "columns not found in the frame")

/-- The `data_processing` section of `config.yaml` read by `read_yaml`. -/
structure Config where
  categorical_columns : List String
  numerical_columns : List String
  skewness_threshold : Rat
  no_of_features : Nat

/-- External float-valued measurements, abstracted into the rationals: the
pandas `Series.skew()` measurement and the fitted random forest
`feature_importances_` (given the feature names, the feature rows and the
label column). -/
structure Oracles where
  skew : List Val → Rat
  importance : List String → List (List Val) → List Val → List Rat

/-- Models sklearn `LabelEncoder.fit_transform` class extraction: the
distinct values of the column, sorted (numpy `unique`). -/
def labelEncodeClasses (col : List Val) : List Val :=
  (dedupKeepFirst col).insertionSort (fun v w => Val.le v w = true)

/-- Models sklearn `LabelEncoder.fit_transform` on one cell: the index of
the value among the sorted distinct values of its column. -/
def labelEncodeCell (col : List Val) (v : Val) : Val :=
  Val.vint (List.indexOf v (labelEncodeClasses col))

/-- The two count columns `preprocess_data` always passes through `log1p`,
independent of their measured skew. -/
def alwaysLogCols : List String :=
  ["no_of_previous_cancellations", "no_of_previous_bookings_not_canceled"]

/-- Sequential in-place column updates over a list of column names: the
first component is the state of the mutated frame (on failure, the state
reached before the failing step), the second the raised or returned value. -/
def mutFoldCols (t : Table) (cs : List String)
    (step : Table → String → Except PyErr Table) :
    Table × Except PyErr Table :=
  match cs with
  | [] => (t, .ok t)
  | c :: rest =>
    match step t c with
    | .error e => (t, .error e)
    | .ok t2 => mutFoldCols t2 rest step

/-- Models `df[num_cols].apply(lambda x: x.skew()).sort_values(ascending=False)`:
the per-column skew measurements, sorted descending by measurement. -/
def skewSeries (cfg : Config) (ext : Oracles) (t : Table) : List (String × Rat) :=
  (cfg.numerical_columns.map (fun c => (c, ext.skew (t.colD c)))).insertionSort
    (fun a b => b.2 ≤ a.2)

/-- Models `skewness[skewness > skew_threshold].index`: the names of the
configured numerical columns whose measured skewness strictly exceeds the
threshold. -/
def skewTxCols (cfg : Config) (ext : Oracles) (t : Table) : List String :=
  ((skewSeries cfg ext t).filter
    (fun p => decide (cfg.skewness_threshold < p.2))).map Prod.fst

/-- The skew-driven transform loop of `preprocess_data`: applies `log1p` in
place to each column of `skewTxCols`. -/
def skewStep (cfg : Config) (ext : Oracles) (t : Table) :
    Table × Except PyErr Table :=
  mutFoldCols t (skewTxCols cfg ext t)
    (fun u c => u.transformCol c (fun _ v => Val.log1p v))

/-- The static wrapper message of `DataProcessor.preprocess_data`. -/
def preprocessMsg : String := "Failed to preprocess the data"

/-- Lifts a fallible frame operation into the error monad whose failures
carry the state of the mutated frame at the point of failure; `s` is that
state for an operation that fails before mutating. -/
def tagErr (s : Table) (x : Except PyErr Table) :
    Except (Table × PyErr) Table :=
  match x with
  | .ok t => .ok t
  | .error e => .error (s, e)

/-- The sequential in-place column updates of `mutFoldCols`, in the
state-carrying error monad. -/
def mutFoldE (t : Table) (cs : List String)
    (step : Table → String → Except PyErr Table) :
    Except (Table × PyErr) Table :=
  match mutFoldCols t cs step with
  | (s, .error e) => .error (s, e)
  | (_, .ok u) => .ok u

/-- The body of `DataProcessor.preprocess_data(df)`, step by step in source
order: the `inplace=True` drop of `Booking_ID`, the `inplace=True`
duplicate drop, the label encoding of each configured categorical column,
the unconditional `log1p` of the two cancellation count columns, the
`df[num_cols]` read (a `KeyError` when a configured numerical column is
missing) and the skew-driven `log1p` loop.  A failure carries the state
the frame has been mutated into when it is raised. -/
def preprocessBody (cfg : Config) (ext : Oracles) (df : Table) :
    Except (Table × PyErr) Table := do
  let d1 ← tagErr df (df.dropColumn "Booking_ID")
  let d3 ← mutFoldE d1.dropDuplicates cfg.categorical_columns
    (fun t c => t.transformCol c labelEncodeCell)
  let d4 ← mutFoldE d3 alwaysLogCols
    (fun t c => t.transformCol c (fun _ v => Val.log1p v))
  if ∀ c ∈ cfg.numerical_columns, c ∈ d4.cols then
    mutFoldE d4 (skewTxCols cfg ext d4)
      (fun u c => u.transformCol c (fun _ v => Val.log1p v))
  else .error (d4, .keyError "numerical columns not found in the frame")

/-- Models `DataProcessor.preprocess_data(df)` with its in-place mutation
made explicit: the first component is the state of the argument frame after
the call (the method mutates `df` with `inplace=True` drops and direct
column assignments), the second the raised `CustomException` or the
returned frame, which is the same object as the mutated argument. -/
def preprocessInPlace (cfg : Config) (ext : Oracles) (df : Table) :
    Table × Except PyErr Table :=
  match preprocessBody cfg ext df with
  | .ok r => (r, .ok r)
  | .error (s, e) => (s, .error (.custom preprocessMsg e))

/-- The value returned by `DataProcessor.preprocess_data(df)`. -/
def preprocess_data (cfg : Config) (ext : Oracles) (df : Table) :
    Except PyErr Table :=
  (preprocessInPlace cfg ext df).2

/-- The state of the argument frame held by the caller after
`DataProcessor.preprocess_data(df)` returns or raises. -/
def preprocessCallerAfter (cfg : Config) (ext : Oracles) (df : Table) : Table :=
  (preprocessInPlace cfg ext df).1

/-- The distinct class values of a label column, first occurrence order. -/
def classesOf (y : List Val) : List Val := dedupKeepFirst y

/-- The size of the largest class of a label column. -/
def maxClassCount (y : List Val) : Nat :=
  ((classesOf y).map (fun c => y.count c)).foldr max 0

/-- The feature rows whose paired label equals `c`. -/
def rowsOfClass (X : List (List Val)) (y : List Val) (c : Val) :
    List (List Val) :=
  ((X.zip y).filter (fun p => p.2 == c)).map Prod.fst

/-- Models imblearn `SMOTE().fit_resample(X, y)` through its documented
contract: the originals are kept in order and every class except the
largest is augmented with synthetic minority samples up to the largest
class count.  The synthetic feature vectors are interpolations between
existing minority samples; interpolation gaps are external randomness, so
they are modelled at gap zero, i.e. as cyclic copies of the existing
minority rows (a point SMOTE can produce).  Raises `ValueError` when the
label column holds fewer than two classes.  `smoteSynth` is the list of
generated (feature row, class) pairs. -/
def smoteSynth (X : List (List Val)) (y : List Val) :
    List (List Val × Val) :=
  (classesOf y).flatMap (fun c =>
    let mine := rowsOfClass X y c
    (List.range (maxClassCount y - y.count c)).map
      (fun j => (mine.getD (j % mine.length) [], c)))

def smoteFitResample (X : List (List Val)) (y : List Val) :
    Except PyErr (List (List Val) × List Val) :=
  if (classesOf y).length < 2 then
    .error (.valueError "SMOTE requires more than one class")
  else
    .ok (X ++ (smoteSynth X y).map Prod.fst,
         y ++ (smoteSynth X y).map Prod.snd)

/-- Models `DataProcessor.balanced_data(df)`: split off the label column,
resample with SMOTE, rebuild the frame from the resampled features with the
label column reattached last, wrapping any failure in `CustomException`. -/
def balanced_data (df : Table) : Except PyErr Table :=
  (do
    let X ← df.dropColumn "booking_status"
    let y := df.colD "booking_status"
    let p ← smoteFitResample X.rows y
    pure (⟨X.cols ++ ["booking_status"],
           List.zipWith (fun xr yv => xr ++ [yv]) p.1 p.2⟩ : Table)
  ).mapError (.custom "Failed to balance the data" ·)

/-- Models `DataProcessor.select_feature(df)`: rank the features by the
fitted random forest importances, sort descending, take the configured
number of top feature names and project the frame onto them plus the label
column, wrapping any failure in `CustomException`. -/
def select_feature (cfg : Config) (ext : Oracles) (df : Table) :
    Except PyErr Table :=
  (do
    let X ← df.dropColumn "booking_status"
    let y := df.colD "booking_status"
    let scores := ext.importance X.cols X.rows y
    let sorted := (X.cols.zip scores).insertionSort
      (fun a b : String × Rat => b.2 ≤ a.2)
    let top := (sorted.take cfg.no_of_features).map Prod.fst
    df.select (top ++ ["booking_status"])
  ).mapError (.custom "Failed to select features" ·)

/-- Models `to_csv` followed by `read_csv`: with `index=False` the written
table is exactly the frame; with the default index the frame index is
written as an unnamed leading column, which `read_csv` names
`Unnamed: 0` (the frame index is modelled by row position). -/
def writeCsv (withIndex : Bool) (t : Table) : Table :=
  if withIndex then
    ⟨"Unnamed: 0" :: t.cols, t.rows.enum.map (fun p => Val.vint p.1 :: p.2)⟩
  else t

/-- Models `DataProcessor.save_data(df, path)`: writes `df.to_csv(path,
index=False)`; the table later read back from that path. -/
def save_data (df : Table) : Table := writeCsv false df

/-- Models `DataProcessor.process()` on the two loaded tables, returning
the pair (table saved to the processed train path, table saved to the
processed test path).  Mirrors the source line by line: both tables are
preprocessed, both are balanced, the feature selector runs on the train
table only, and the test variable is then reassigned to
`train_df[train_df.columns]` before saving, discarding the balanced test
table. -/
def process (cfg : Config) (ext : Oracles) (trainDf testDf : Table) :
    Except PyErr (Table × Table) :=
  (do
    let train1 ← preprocess_data cfg ext trainDf
    let test1 ← preprocess_data cfg ext testDf
    let train2 ← balanced_data train1
    let _ ← balanced_data test1
    let train3 ← select_feature cfg ext train2
    let testOut ← train3.select train3.cols
    pure (save_data train3, save_data testOut)
  ).mapError (.custom "Failed to process the data" ·)

/-- The linear congruential step standing in for the numpy pseudo random
generator state transition inside a seeded shuffle. -/
def lcgNext (s : Nat) : Nat := (s * 1103515245 + 12345) % 4294967296

/-- Seeded Fisher-Yates shuffle driven by the generator state, with the
list length as structural fuel. -/
def shuffleAux : Nat → List (List Val) → Nat → List (List Val)
  | 0, l, _ => l
  | n + 1, l, s =>
    match l with
    | [] => []
    | x :: xs =>
      let i := s % (x :: xs).length
      (x :: xs).getD i x :: shuffleAux n ((x :: xs).eraseIdx i) (lcgNext s)

/-- Seeded shuffle of the rows of a table. -/
def shuffleRows (l : List (List Val)) (s : Nat) : List (List Val) :=
  shuffleAux l.length l s

/-- Models sklearn `train_test_split(data, test_size, random_state)`: the
row permutation is derived from the integer `random_state` alone when one
is given, and from the ambient global generator state `g` when
`random_state` is `None`.  The first `ceil(test_size * n)` shuffled rows
form the test split, the rest the train split.  Returns (train, test). -/
def train_test_split (rows : List (List Val)) (testSize : Rat)
    (randomState : Option Nat) (g : Nat) :
    List (List Val) × List (List Val) :=
  let seed := randomState.getD g
  let shuffled := shuffleRows rows seed
  let nTest := (testSize * (rows.length : Rat)).ceil.toNat
  (shuffled.drop nTest, shuffled.take nTest)

/-- Models `DataIngestion.split_data` on the table read from the raw csv:
splits with `test_size = 1 - train_ratio` and `random_state=42`, then saves
both partitions with `to_csv` at its default `index=True`.  `g` is the
ambient global generator state at call time (unused, because the seed is
fixed at 42 in the source).  Returns the written (train, test) tables. -/
def split_data (trainRatio : Rat) (data : Table) (g : Nat) : Table × Table :=
  let p := train_test_split data.rows (1 - trainRatio) (some 42) g
  (writeCsv true ⟨data.cols, p.1⟩, writeCsv true ⟨data.cols, p.2⟩)

/-- Models `DataIngestion.run`, with the outcomes of the two called stage
methods injected: the body runs the download then the split inside a
`try` whose `except CustomException` clause only logs the exception, so a
wrapped failure produces a normal return; only a non-`CustomException`
error would propagate.  The `finally` clause only logs. -/
def ingestionRun (downloadRes splitRes : Except PyErr Unit) :
    Except PyErr Unit :=
  match (do let _ ← downloadRes; splitRes : Except PyErr Unit) with
  | .ok _ => .ok ()
  | .error (.custom _ _) => .ok ()
  | .error e => .error e

/-- Models `ModelTraining.load_and_split_data` on the two loaded tables:
drops the column `Unnamed: 0` from both (a `KeyError` when absent), then
splits each into features and the `booking_status` label, wrapping any
failure in `CustomException`. -/
def load_and_split_data (trainT testT : Table) :
    Except PyErr ((Table × List Val) × (Table × List Val)) :=
  (do
    let train1 ← trainT.dropColumn "Unnamed: 0"
    let test1 ← testT.dropColumn "Unnamed: 0"
    let xTrain ← train1.dropColumn "booking_status"
    let yTrain := train1.colD "booking_status"
    let xTest ← test1.dropColumn "booking_status"
    let yTest := test1.colD "booking_status"
    pure ((xTrain, yTrain), (xTest, yTest))
  ).mapError (.custom "Failed to load and split the data" ·)

/-- The static wrapper message of `ModelTraining.run`. -/
def mtWrap (e : PyErr) : PyErr := .custom "Failed to train the model" e

/-- Models `ModelTraining.run` with the outcome of each call of its body
injected in source order: `mlflow.start_run`, the two dataset
`log_artifact` calls, `load_and_split_data`, `train_lgbm`,
`evaluate_model`, `save_model`, the model `log_artifact`, `log_params` and
`log_metrics`.  Everything runs inside one `try`, so the first failure is
wrapped by the single `except` into `CustomException("Failed to train the
model", e)` and aborts the rest.  The boolean records whether `save_model`
completed, i.e. whether the serialized model file exists on disk when the
method returns or raises. -/
def mtRun (startRun logArtTrain logArtTest loadRes trainRes evalRes saveRes
    logArtModel logParams logMetrics : Except PyErr Unit) :
    Except PyErr Unit × Bool :=
  match startRun with
  | .error e => (.error (mtWrap e), false)
  | .ok _ =>
    match logArtTrain with
    | .error e => (.error (mtWrap e), false)
    | .ok _ =>
      match logArtTest with
      | .error e => (.error (mtWrap e), false)
      | .ok _ =>
        match loadRes with
        | .error e => (.error (mtWrap e), false)
        | .ok _ =>
          match trainRes with
          | .error e => (.error (mtWrap e), false)
          | .ok _ =>
            match evalRes with
            | .error e => (.error (mtWrap e), false)
            | .ok _ =>
              match saveRes with
              | .error e => (.error (mtWrap e), false)
              | .ok _ =>
                match logArtModel with
                | .error e => (.error (mtWrap e), true)
                | .ok _ =>
                  match logParams with
                  | .error e => (.error (mtWrap e), true)
                  | .ok _ =>
                    match logMetrics with
                    | .error e => (.error (mtWrap e), true)
                    | .ok _ => (.ok (), true)

lemma except_bind_ok {ε α β : Type} (x : Except ε α) (f : α → Except ε β)
    (b : β) : (x >>= f) = .ok b ↔ ∃ a, x = .ok a ∧ f a = .ok b := by
  cases x with
  | error e => simp [Bind.bind, Except.bind]
  | ok a => simp [Bind.bind, Except.bind]

lemma except_mapError_ok {ε ε2 α : Type} (g : ε → ε2) (x : Except ε α)
    (a : α) : x.mapError g = .ok a ↔ x = .ok a := by
  cases x <;> simp [Except.mapError]

lemma indexOf_getElem_self {α : Type} [DecidableEq α] {l : List α}
    (h : l.Nodup) {i : Nat} (hi : i < l.length) : l.indexOf l[i] = i := by
  have hm : l[i] ∈ l := List.getElem_mem hi
  have h2 : l.indexOf l[i] < l.length := List.indexOf_lt_length.mpr hm
  have h3 : l[l.indexOf l[i]] = l[i] := List.getElem_indexOf h2
  exact (List.Nodup.getElem_inj_iff h).mp h3

lemma not_mem_eraseIdx_indexOf {α : Type} [DecidableEq α] {l : List α}
    {c : α} (h : l.Nodup) : c ∉ l.eraseIdx (l.indexOf c) := by
  intro hmem
  rw [List.mem_eraseIdx_iff_getElem] at hmem
  obtain ⟨i, hi, hne, hgi⟩ := hmem
  apply hne
  rw [← hgi]
  exact (indexOf_getElem_self h hi).symm

lemma getD_set_ne (r : List Val) (i j : Nat) (x d : Val) (hne : i ≠ j) :
    (r.set i x).getD j d = r.getD j d := by
  by_cases hj : j < r.length
  · rw [List.getD_eq_getElem _ _ (by simpa using hj),
        List.getD_eq_getElem _ _ hj, List.getElem_set_ne hne]
  · have h1 : r.length ≤ j := le_of_not_lt hj
    rw [List.getD_eq_default _ _ (by simpa using h1),
        List.getD_eq_default _ _ h1]

lemma getD_set_self (r : List Val) (i : Nat) (x d : Val)
    (hi : i < r.length) : (r.set i x).getD i d = x := by
  rw [List.getD_eq_getElem _ _ (by simpa using hi), List.getElem_set_self]

lemma dropColumn_ok_iff (t : Table) (c : String) (u : Table) :
    t.dropColumn c = .ok u ↔
      c ∈ t.cols ∧
      u = ⟨t.cols.eraseIdx (t.cols.indexOf c),
           t.rows.map (fun r => r.eraseIdx (t.cols.indexOf c))⟩ := by
  unfold Table.dropColumn
  split
  · next h => simp [h, eq_comm]
  · next h => simp [h]

lemma select_ok_cols (t : Table) (names : List String) (u : Table)
    (h : t.select names = .ok u) : u.cols = names := by
  unfold Table.select at h
  split at h
  · cases h; rfl
  · cases h

lemma select_ok_wfRows (t : Table) (names : List String) (u : Table)
    (h : t.select names = .ok u) : u.wfRows := by
  unfold Table.select at h
  split at h
  · cases h
    intro r hr
    simp only [List.mem_map] at hr
    obtain ⟨r0, _, hr0⟩ := hr
    simp [← hr0]
  · cases h

lemma select_self (t : Table) (h1 : t.cols.Nodup) (h2 : t.wfRows) :
    t.select t.cols = .ok t := by
  unfold Table.select
  rw [if_pos (fun c hc => hc)]
  cases t with
  | mk cols rows =>
    simp only [Except.ok.injEq, Table.mk.injEq, true_and]
    have hrows : ∀ r ∈ rows,
        cols.map (fun c => r.getD (cols.indexOf c) (Val.vint 0)) = r := by
      intro r hr
      have hlen : r.length = cols.length := h2 r hr
      apply List.ext_getElem
      · simp [hlen]
      · intro i hi1 hi2
        simp only [List.getElem_map]
        rw [indexOf_getElem_self h1 (by simpa using hi1)]
        rw [List.getD_eq_getElem _ _ hi2]
    calc rows.map (fun r =>
          cols.map (fun c => r.getD (cols.indexOf c) (Val.vint 0)))
        = rows.map id := List.map_congr_left (fun r hr => hrows r hr)
      _ = rows := List.map_id rows

lemma transformCol_ok (t : Table) (c : String) (f : List Val → Val → Val)
    (hc : c ∈ t.cols) :
    t.transformCol c f =
      .ok ⟨t.cols,
           t.rows.map (fun r =>
             r.set (t.cols.indexOf c)
               (f (t.colD c) (r.getD (t.cols.indexOf c) (Val.vint 0))))⟩ := by
  unfold Table.transformCol
  rw [if_pos hc]

lemma transformCol_ok_cols (t : Table) (c : String)
    (f : List Val → Val → Val) (u : Table)
    (h : t.transformCol c f = .ok u) : u.cols = t.cols := by
  unfold Table.transformCol at h
  split at h
  · cases h; rfl
  · cases h

lemma transformCol_ok_wfRows (t : Table) (c : String)
    (f : List Val → Val → Val) (u : Table) (hw : t.wfRows)
    (h : t.transformCol c f = .ok u) : u.wfRows := by
  unfold Table.transformCol at h
  split at h
  · cases h
    intro r hr
    simp only [List.mem_map] at hr
    obtain ⟨r0, hr0m, hr0⟩ := hr
    simp [← hr0, hw r0 hr0m]
  · cases h

lemma colD_transformCol_self (t : Table) (c : String)
    (f : List Val → Val → Val) (u : Table) (hw : t.wfRows)
    (hc : c ∈ t.cols) (h : t.transformCol c f = .ok u) :
    u.colD c = (t.colD c).map (f (t.colD c)) := by
  rw [transformCol_ok t c f hc] at h
  cases h
  unfold Table.colD
  rw [if_pos hc, if_pos hc]
  simp only [List.map_map]
  apply List.map_congr_left
  intro r hr
  simp only [Function.comp]
  rw [getD_set_self]
  rw [hw r hr]
  exact List.indexOf_lt_length.mpr hc

lemma colD_transformCol_other (t : Table) (c c2 : String)
    (f : List Val → Val → Val) (u : Table)
    (hne : c2 ≠ c) (h : t.transformCol c f = .ok u) :
    u.colD c2 = t.colD c2 := by
  have hc : c ∈ t.cols := by
    unfold Table.transformCol at h
    split at h
    · next hh => exact hh
    · cases h
  rw [transformCol_ok t c f hc] at h
  cases h
  unfold Table.colD
  by_cases hc2 : c2 ∈ t.cols
  · rw [if_pos hc2, if_pos hc2]
    simp only [List.map_map]
    apply List.map_congr_left
    intro r hr
    simp only [Function.comp]
    apply getD_set_ne
    intro hij
    exact hne ((List.indexOf_inj hc hc2).mp hij).symm
  · rw [if_neg hc2, if_neg hc2]

lemma mutFold_log_ok (cs : List String) :
    ∀ t : Table, cs.Nodup → (∀ d ∈ cs, d ∈ t.cols) → t.wfRows →
    ∃ u, (mutFoldCols t cs
        (fun w c => w.transformCol c (fun _ v => Val.log1p v))).2 = .ok u ∧
      u.cols = t.cols ∧ u.wfRows ∧
      (∀ c ∈ cs, u.colD c = (t.colD c).map Val.log1p) ∧
      (∀ c, c ∉ cs → u.colD c = t.colD c) := by
  induction cs with
  | nil =>
    intro t _ _ hw
    exact ⟨t, rfl, rfl, hw, by simp, fun c _ => rfl⟩
  | cons c rest ih =>
    intro t hnd hmem hw
    have hc : c ∈ t.cols := hmem c (by simp)
    have hstep := transformCol_ok t c (fun _ v => Val.log1p v) hc
    obtain ⟨t2, ht2⟩ : ∃ t2,
        t.transformCol c (fun _ v => Val.log1p v) = .ok t2 := ⟨_, hstep⟩
    have hcols2 : t2.cols = t.cols := transformCol_ok_cols _ _ _ _ ht2
    have hw2 : t2.wfRows := transformCol_ok_wfRows _ _ _ _ hw ht2
    have hcs : c ∉ rest := (List.nodup_cons.mp hnd).1
    have hndr : rest.Nodup := (List.nodup_cons.mp hnd).2
    have hmem2 : ∀ d ∈ rest, d ∈ t2.cols := by
      intro d hd; rw [hcols2]; exact hmem d (by simp [hd])
    obtain ⟨u, hu, hucols, huw, hin, hout⟩ := ih t2 hndr hmem2 hw2
    refine ⟨u, ?_, by rw [hucols, hcols2], huw, ?_, ?_⟩
    · show (mutFoldCols t (c :: rest) _).2 = .ok u
      unfold mutFoldCols
      rw [ht2]
      exact hu
    · intro d hd
      rcases List.mem_cons.mp hd with hdc | hdr
      · subst hdc
        rw [hout d hcs, colD_transformCol_self t d _ t2 hw hc ht2]
      · have hdnec : d ≠ c := fun hh => hcs (hh ▸ hdr)
        rw [hin d hdr, colD_transformCol_other t c d _ t2 hdnec ht2]
    · intro d hd
      have hdnec : d ≠ c := fun hh => hd (by simp [hh])
      have hdr : d ∉ rest := fun hh => hd (by simp [hh])
      rw [hout d hdr, colD_transformCol_other t c d _ t2 hdnec ht2]

lemma mem_skewTxCols (cfg : Config) (ext : Oracles) (t : Table)
    (c : String) :
    c ∈ skewTxCols cfg ext t ↔
      c ∈ cfg.numerical_columns ∧
        cfg.skewness_threshold < ext.skew (t.colD c) := by
  unfold skewTxCols skewSeries
  constructor
  · intro h
    simp only [List.mem_map, List.mem_filter] at h
    obtain ⟨p, ⟨hps, hpf⟩, hpc⟩ := h
    have hpm : p ∈ cfg.numerical_columns.map
        (fun d => (d, ext.skew (t.colD d))) :=
      (List.perm_insertionSort _ _).subset hps
    simp only [List.mem_map] at hpm
    obtain ⟨d, hd, hdp⟩ := hpm
    subst hdp
    rcases hpc with rfl
    exact ⟨hd, by simpa using hpf⟩
  · intro ⟨h1, h2⟩
    simp only [List.mem_map, List.mem_filter]
    refine ⟨(c, ext.skew (t.colD c)), ⟨?_, by simpa using h2⟩, rfl⟩
    apply (List.perm_insertionSort _ _).mem_iff.mpr
    simp only [List.mem_map]
    exact ⟨c, h1, rfl⟩

lemma skewTxCols_nodup (cfg : Config) (ext : Oracles) (t : Table)
    (h : cfg.numerical_columns.Nodup) : (skewTxCols cfg ext t).Nodup := by
  unfold skewTxCols
  have h1 : ((skewSeries cfg ext t).map Prod.fst).Nodup := by
    unfold skewSeries
    have hperm := List.perm_insertionSort
      (fun a b : String × Rat => b.2 ≤ a.2)
      (cfg.numerical_columns.map (fun c => (c, ext.skew (t.colD c))))
    have hmapfst : List.map Prod.fst
        (cfg.numerical_columns.map (fun c => (c, ext.skew (t.colD c)))) =
        cfg.numerical_columns := by
      induction cfg.numerical_columns with
      | nil => rfl
      | cons a l ihl => simp only [List.map_cons, ihl]
    have := hperm.map Prod.fst
    apply this.nodup_iff.mpr
    rw [hmapfst]
    exact h
  exact List.Nodup.sublist
    (List.Sublist.map Prod.fst (List.filter_sublist _)) h1

/-- Fixture: configuration with one numerical column and the skew threshold
at zero. -/
def cfg8 : Config := ⟨[], ["x"], 0, 1⟩

/-- Fixture: oracles measuring every column at skewness zero, exactly the
configured threshold of `cfg8`. -/
def ext8 : Oracles := ⟨fun _ => 0, fun _ _ _ => []⟩

/-- Fixture: one-column one-row table. -/
def t8 : Table := ⟨["x"], [[.vint 1]]⟩

/-- Claim C8: the skewness-driven transform of `preprocess_data` uses a
strict comparison: a configured numerical column is in the transform index
if and only if its measured skewness strictly exceeds the configured
threshold, and the skew step maps `log1p` over exactly those columns — in
particular a column whose skewness equals the threshold is left
unchanged. -/
theorem skew_transform_strict_boundary (cfg : Config) (ext : Oracles)
    (t : Table) (c : String)
    (hnum : cfg.numerical_columns.Nodup)
    (hc : c ∈ cfg.numerical_columns)
    (hsub : ∀ d ∈ cfg.numerical_columns, d ∈ t.cols)
    (hw : t.wfRows) :
    (c ∈ skewTxCols cfg ext t ↔
      cfg.skewness_threshold < ext.skew (t.colD c)) ∧
    ∃ u, (skewStep cfg ext t).2 = .ok u ∧
      u.colD c = (if cfg.skewness_threshold < ext.skew (t.colD c)
        then (t.colD c).map Val.log1p else t.colD c) := by
  have hiff := mem_skewTxCols cfg ext t c
  have hnd := skewTxCols_nodup cfg ext t hnum
  have hmem : ∀ d ∈ skewTxCols cfg ext t, d ∈ t.cols := by
    intro d hd
    exact hsub d ((mem_skewTxCols cfg ext t d).mp hd).1
  obtain ⟨u, hu, _, _, hin, hout⟩ :=
    mutFold_log_ok (skewTxCols cfg ext t) t hnd hmem hw
  constructor
  · exact ⟨fun h => (hiff.mp h).2, fun h => hiff.mpr ⟨hc, h⟩⟩
  · refine ⟨u, hu, ?_⟩
    by_cases hgt : cfg.skewness_threshold < ext.skew (t.colD c)
    · rw [if_pos hgt]
      exact hin c (hiff.mpr ⟨hc, hgt⟩)
    · rw [if_neg hgt]
      apply hout
      intro hcc
      exact hgt (hiff.mp hcc).2

/-- Witness for C8 at a concrete boundary input: the measured skewness of
column `x` equals the threshold, so `x` is not in the transform index and
the skew step leaves the column unchanged. -/
theorem skew_transform_strict_boundary_witness :
    ("x" ∈ skewTxCols cfg8 ext8 t8 ↔
      cfg8.skewness_threshold < ext8.skew (t8.colD "x")) ∧
    ∃ u, (skewStep cfg8 ext8 t8).2 = .ok u ∧
      u.colD "x" = (if cfg8.skewness_threshold < ext8.skew (t8.colD "x")
        then (t8.colD "x").map Val.log1p else t8.colD "x") :=
  skew_transform_strict_boundary cfg8 ext8 t8 "x" (by decide) (by decide)
    (by decide) (by decide)

lemma tagErr_ok_iff (s : Table) (x : Except PyErr Table) (u : Table) :
    tagErr s x = .ok u ↔ x = .ok u := by
  cases x <;> simp [tagErr]

lemma mutFoldE_ok_iff (t : Table) (cs : List String)
    (step : Table → String → Except PyErr Table) (u : Table) :
    mutFoldE t cs step = .ok u ↔ (mutFoldCols t cs step).2 = .ok u := by
  unfold mutFoldE
  cases hm : mutFoldCols t cs step with
  | mk s res => cases res <;> simp

lemma preprocess_data_ok_iff (cfg : Config) (ext : Oracles) (df r : Table) :
    preprocess_data cfg ext df = .ok r ↔
      preprocessBody cfg ext df = .ok r := by
  unfold preprocess_data preprocessInPlace
  cases hb : preprocessBody cfg ext df with
  | ok t => simp
  | error p => cases p; simp

lemma preprocess_caller_eq (cfg : Config) (ext : Oracles) (df r : Table)
    (h : preprocess_data cfg ext df = .ok r) :
    preprocessCallerAfter cfg ext df = r := by
  unfold preprocess_data preprocessInPlace at h
  unfold preprocessCallerAfter preprocessInPlace
  cases hb : preprocessBody cfg ext df with
  | ok t =>
    rw [hb] at h
    simp only at h
    cases h
    rfl
  | error p =>
    rw [hb] at h
    cases p
    simp at h

lemma mutFoldCols_snd_ok_cols
    (step : Table → String → Except PyErr Table)
    (hstep : ∀ t c u, step t c = .ok u → u.cols = t.cols) :
    ∀ (cs : List String) (t u : Table),
      (mutFoldCols t cs step).2 = .ok u → u.cols = t.cols := by
  intro cs
  induction cs with
  | nil =>
    intro t u h
    simp only [mutFoldCols] at h
    cases h
    rfl
  | cons c rest ih =>
    intro t u h
    simp only [mutFoldCols] at h
    cases hs : step t c with
    | error e => rw [hs] at h; simp at h
    | ok t2 =>
      rw [hs] at h
      rw [ih t2 u h, hstep t c t2 hs]

lemma preprocessBody_ok_cols (cfg : Config) (ext : Oracles) (df r : Table)
    (h : preprocessBody cfg ext df = .ok r) :
    "Booking_ID" ∈ df.cols ∧
    r.cols = df.cols.eraseIdx (df.cols.indexOf "Booking_ID") := by
  unfold preprocessBody at h
  rw [except_bind_ok] at h
  obtain ⟨d1, hd1, h⟩ := h
  rw [tagErr_ok_iff] at hd1
  obtain ⟨hbid, hd1e⟩ := (dropColumn_ok_iff df "Booking_ID" d1).mp hd1
  rw [except_bind_ok] at h
  obtain ⟨d3, hd3, h⟩ := h
  rw [except_bind_ok] at h
  obtain ⟨d4, hd4, h⟩ := h
  have hstep : ∀ (t : Table) (c : String) (u : Table),
      t.transformCol c (fun _ v => Val.log1p v) = .ok u →
        u.cols = t.cols := fun t c u hu => transformCol_ok_cols t c _ u hu
  have hstep2 : ∀ (t : Table) (c : String) (u : Table),
      t.transformCol c labelEncodeCell = .ok u → u.cols = t.cols :=
    fun t c u hu => transformCol_ok_cols t c _ u hu
  have hc3 : d3.cols = d1.dropDuplicates.cols :=
    mutFoldCols_snd_ok_cols _ hstep2 _ _ _ ((mutFoldE_ok_iff _ _ _ _).mp hd3)
  have hdd : d1.dropDuplicates.cols = d1.cols := rfl
  have hc4 : d4.cols = d3.cols :=
    mutFoldCols_snd_ok_cols _ hstep _ _ _ ((mutFoldE_ok_iff _ _ _ _).mp hd4)
  split at h
  · have hcr : r.cols = d4.cols :=
      mutFoldCols_snd_ok_cols _ hstep _ _ _ ((mutFoldE_ok_iff _ _ _ _).mp h)
    refine ⟨hbid, ?_⟩
    rw [hcr, hc4, hc3, hdd, hd1e]
  · cases h

lemma preprocess_ok_nodup (cfg : Config) (ext : Oracles) (df r : Table)
    (hnd : df.cols.Nodup) (h : preprocess_data cfg ext df = .ok r) :
    r.cols.Nodup := by
  obtain ⟨_, hcols⟩ :=
    preprocessBody_ok_cols cfg ext df r ((preprocess_data_ok_iff _ _ _ _).mp h)
  rw [hcols]
  exact List.Nodup.sublist (List.eraseIdx_sublist _ _) hnd

/-- Fixture: configuration with no categorical and no numerical columns
configured, threshold zero, one feature to select. -/
def cfgP : Config := ⟨[], [], 0, 1⟩

/-- Fixture: oracles with zero skew everywhere and all importances zero. -/
def extP : Oracles := ⟨fun _ => 0, fun cols _ _ => cols.map (fun _ => 0)⟩

/-- Fixture: a raw train table with identifier, the two count columns and
an imbalanced binary label (two rows of class 0, one of class 1). -/
def trP : Table :=
  ⟨["Booking_ID", "no_of_previous_cancellations",
    "no_of_previous_bookings_not_canceled", "booking_status"],
   [[.vstr "a", .vint 0, .vint 0, .vint 0],
    [.vstr "b", .vint 1, .vint 1, .vint 1],
    [.vstr "c", .vint 2, .vint 2, .vint 0]]⟩

/-- Fixture: a raw test table with the same header and two balanced rows,
disjoint in content from `trP`. -/
def teP : Table :=
  ⟨["Booking_ID", "no_of_previous_cancellations",
    "no_of_previous_bookings_not_canceled", "booking_status"],
   [[.vstr "x", .vint 5, .vint 5, .vint 0],
    [.vstr "y", .vint 6, .vint 6, .vint 1]]⟩

/-- Fixture: the value of `preprocess_data cfgP extP trP`. -/
def preP : Table :=
  ⟨["no_of_previous_cancellations", "no_of_previous_bookings_not_canceled",
    "booking_status"],
   [[.log1p (.vint 0), .log1p (.vint 0), .vint 0],
    [.log1p (.vint 1), .log1p (.vint 1), .vint 1],
    [.log1p (.vint 2), .log1p (.vint 2), .vint 0]]⟩

/-- Claim C10 counterexample: `preprocess_data` does mutate its input in
place — on the concrete table `trP` the frame held by the caller after the
call differs from the table passed in (the identifier column is gone and
the count columns are log-transformed), so the caller cannot rely on its
table being unchanged. -/
theorem preprocess_mutates_caller_cex :
    preprocessCallerAfter cfgP extP trP ≠ trP := by decide

/-- Claim C10 (amended): `preprocess_data` mutates the caller table in
place (`inplace=True` drops and direct column assignments) and returns
that same mutated frame: whenever the call succeeds, the state of the
caller table after the call equals the returned table, not the original
input. -/
theorem preprocess_mutates_in_place (cfg : Config) (ext : Oracles)
    (df r : Table) (h : preprocess_data cfg ext df = .ok r) :
    preprocessCallerAfter cfg ext df = r :=
  preprocess_caller_eq cfg ext df r h

/-- Witness for the amended C10 at the concrete input `trP`. -/
theorem preprocess_mutates_in_place_witness :
    preprocessCallerAfter cfgP extP trP = preP :=
  preprocess_mutates_in_place cfgP extP trP preP (by decide)

/-- Claim C7: the splitter is deterministic — for a fixed train ratio and
the seed fixed at 42 in the source, two calls of `split_data` on the same
input table agree for any two ambient global generator states, i.e. the
produced partitions do not depend on anything but the table and the
ratio. -/
theorem split_data_deterministic (trainRatio : Rat) (data : Table)
    (g1 g2 : Nat) :
    split_data trainRatio data g1 = split_data trainRatio data g2 := rfl

/-- Claim C6 counterexample: with every pipeline step succeeding and only
the final tracker call (`mlflow.log_metrics`) failing, `ModelTraining.run`
raises the wrapped `CustomException` — the run is reported as a training
failure even though the model file was already serialized (the flag is
`true`).  Tracker logging is therefore not best-effort. -/
theorem tracker_failure_fails_run_cex :
    mtRun (.ok ()) (.ok ()) (.ok ()) (.ok ()) (.ok ()) (.ok ()) (.ok ())
        (.ok ()) (.ok ()) (.error (.valueError "tracker unreachable")) =
      (.error (.custom "Failed to train the model"
        (.valueError "tracker unreachable")), true) := rfl

/-- Claim C6 (amended): tracker failures are wrapped like any training
failure: a failing tracker call after `save_model` leaves the serialized
model on disk but makes `run` raise `CustomException("Failed to train the
model", e)`, and a tracker failure at `mlflow.start_run` aborts the run
before any model is fitted or saved. -/
theorem tracker_failure_aborts_run (e : PyErr) :
    mtRun (.ok ()) (.ok ()) (.ok ()) (.ok ()) (.ok ()) (.ok ()) (.ok ())
        (.ok ()) (.ok ()) (.error e) = (.error (mtWrap e), true) ∧
    mtRun (.error e) (.ok ()) (.ok ()) (.ok ()) (.ok ()) (.ok ()) (.ok ())
        (.ok ()) (.ok ()) (.ok ()) = (.error (mtWrap e), false) :=
  ⟨rfl, rfl⟩

/-- Claim C5 counterexample: `DataIngestion.run` catches the wrapped
`CustomException` raised by a failing download and returns normally, so
the failure does not propagate past the stage boundary — it is only
logged. -/
theorem ingestion_run_swallows_failure_cex :
    ingestionRun
        (.error (.custom "Failed to download csv file: boom "
          (.valueError "boom"))) (.ok ()) = .ok () := rfl

/-- Claim C5 (amended): every stage failure is wrapped into the single
`CustomException` kind carrying a static operation message and the cause
(there is no four-kind taxonomy), and `DataIngestion.run` catches any such
wrapped failure and returns normally instead of propagating it. -/
theorem stage_failure_single_kind_and_swallowed :
    (∀ (m : String) (e : PyErr) (s : Except PyErr Unit),
      ingestionRun (.error (.custom m e)) s = .ok ()) ∧
    (∀ (cfg : Config) (ext : Oracles) (t : Table), "Booking_ID" ∉ t.cols →
      preprocess_data cfg ext t =
        .error (.custom preprocessMsg (.keyError "Booking_ID"))) := by
  constructor
  · intro m e s
    rfl
  · intro cfg ext t h
    unfold preprocess_data preprocessInPlace preprocessBody tagErr
      Table.dropColumn
    rw [if_neg h]
    rfl

/-- Witness for the amended C5: a concrete swallowed ingestion failure and
a concrete wrapped preprocessing failure on a table with no identifier
column. -/
theorem stage_failure_single_kind_and_swallowed_witness :
    ingestionRun (.error (.custom "w" (.valueError "v"))) (.ok ()) =
      .ok () ∧
    preprocess_data cfg8 ext8 t8 =
      .error (.custom preprocessMsg (.keyError "Booking_ID")) :=
  ⟨stage_failure_single_kind_and_swallowed.1 "w" (.valueError "v") (.ok ()),
   stage_failure_single_kind_and_swallowed.2 cfg8 ext8 t8 (by decide)⟩

/-- Claim C4: `save_data` writes with `index=False`, so it adds no index
column to the written table; on any train table lacking a column named
`Unnamed: 0` — in particular any such table written by `save_data` —
`ModelTraining.load_and_split_data` raises the wrapped `CustomException`
caused by the unconditional drop of that column, so the training stage
cannot succeed on the processed outputs. -/
theorem load_split_fails_without_index_col (tr te : Table)
    (h : "Unnamed: 0" ∉ tr.cols) :
    (save_data tr).cols = tr.cols ∧
    load_and_split_data (save_data tr) te =
      .error (.custom "Failed to load and split the data"
        (.keyError "Unnamed: 0")) := by
  refine ⟨rfl, ?_⟩
  have hd : (save_data tr).dropColumn "Unnamed: 0" =
      .error (.keyError "Unnamed: 0") := by
    show tr.dropColumn "Unnamed: 0" = .error (.keyError "Unnamed: 0")
    unfold Table.dropColumn
    rw [if_neg h]
  unfold load_and_split_data
  rw [hd]
  rfl

/-- Witness for C4 at a concrete processed table with no index column. -/
theorem load_split_fails_without_index_col_witness :
    (save_data preP).cols = preP.cols ∧
    load_and_split_data (save_data preP) preP =
      .error (.custom "Failed to load and split the data"
        (.keyError "Unnamed: 0")) :=
  load_split_fails_without_index_col preP preP (by decide)

lemma mem_dedupAux {α : Type} [DecidableEq α] (l : List α) :
    ∀ (seen : List α) (x : α),
      x ∈ dedupAux l seen ↔ x ∈ l ∧ x ∉ seen := by
  induction l with
  | nil => intro seen x; simp [dedupAux]
  | cons a as ih =>
    intro seen x
    unfold dedupAux
    by_cases ha : a ∈ seen
    · rw [if_pos ha, ih]
      constructor
      · intro ⟨h1, h2⟩
        exact ⟨by simp [h1], h2⟩
      · intro ⟨h1, h2⟩
        rcases List.mem_cons.mp h1 with rfl | h1
        · exact absurd ha h2
        · exact ⟨h1, h2⟩
    · rw [if_neg ha]
      simp only [List.mem_cons, ih]
      constructor
      · intro h
        rcases h with rfl | ⟨h1, h2⟩
        · exact ⟨Or.inl rfl, ha⟩
        · exact ⟨Or.inr h1, fun hs => h2 (by simp [hs])⟩
      · intro ⟨h1, h2⟩
        rcases h1 with rfl | h1
        · exact Or.inl rfl
        · by_cases hx : x = a
          · exact Or.inl hx
          · refine Or.inr ⟨h1, fun hs => ?_⟩
            rcases hs with hh | hh
            · exact hx hh
            · exact h2 hh

lemma mem_dedupKeepFirst {α : Type} [DecidableEq α] (l : List α) (x : α) :
    x ∈ dedupKeepFirst l ↔ x ∈ l := by
  unfold dedupKeepFirst
  rw [mem_dedupAux]
  simp

lemma nodup_dedupAux {α : Type} [DecidableEq α] (l : List α) :
    ∀ seen : List α, (dedupAux l seen).Nodup := by
  induction l with
  | nil => intro seen; simp [dedupAux]
  | cons a as ih =>
    intro seen
    unfold dedupAux
    by_cases ha : a ∈ seen
    · rw [if_pos ha]; exact ih seen
    · rw [if_neg ha]
      refine List.nodup_cons.mpr ⟨?_, ih (a :: seen)⟩
      intro hmem
      exact ((mem_dedupAux as (a :: seen) a).mp hmem).2 (by simp)

lemma nodup_dedupKeepFirst {α : Type} [DecidableEq α] (l : List α) :
    (dedupKeepFirst l).Nodup := nodup_dedupAux l []

lemma nodup_classesOf (y : List Val) : (classesOf y).Nodup :=
  nodup_dedupKeepFirst y

lemma mem_classesOf (y : List Val) (v : Val) :
    v ∈ classesOf y ↔ v ∈ y := mem_dedupKeepFirst y v

lemma pure_ok {ε α : Type} (x b : α) :
    (pure x : Except ε α) = .ok b ↔ x = b := by
  simp [pure, Except.pure]

lemma zipWith_same {α β : Type} (f : α → α → β) (l : List α) :
    List.zipWith f l l = l.map (fun a => f a a) := by
  induction l with
  | nil => rfl
  | cons a as ih => simp [ih]

lemma le_foldr_max (l : List Nat) (a : Nat) (h : a ∈ l) :
    a ≤ l.foldr max 0 := by
  induction l with
  | nil => cases h
  | cons b bs ih =>
    rcases List.mem_cons.mp h with rfl | h2
    · exact le_max_left _ _
    · exact le_trans (ih h2) (le_max_right _ _)

lemma count_le_maxClassCount (y : List Val) (v : Val) (hv : v ∈ y) :
    y.count v ≤ maxClassCount y := by
  apply le_foldr_max
  simp only [List.mem_map]
  exact ⟨v, (mem_classesOf y v).mpr hv, rfl⟩

lemma indexOf_append_singleton {α : Type} [DecidableEq α]
    (cs : List α) (c : α) (h : c ∉ cs) :
    (cs ++ [c]).indexOf c = cs.length := by
  induction cs with
  | nil => simp
  | cons a as ih =>
    have hne : c ≠ a := fun hh => h (by simp [hh])
    have hh : a ≠ c := fun hh => hne hh.symm
    simp only [List.cons_append, List.indexOf_cons_ne _ hh,
      ih (fun hm => h (by simp [hm])), List.length_cons]

lemma count_flatMap_replicate_zero (classes : List Val) (f : Val → Nat)
    (v : Val) (hv : v ∉ classes) :
    (classes.flatMap (fun c => List.replicate (f c) c)).count v = 0 := by
  induction classes with
  | nil => rfl
  | cons c cs ih =>
    have hvc : v ≠ c := fun hh => hv (by simp [hh])
    simp only [List.flatMap_cons, List.count_append]
    rw [ih (fun hm => hv (by simp [hm])), List.count_replicate]
    simp [hvc.symm]

lemma count_flatMap_replicate_self (classes : List Val) (f : Val → Nat)
    (v : Val) (hnd : classes.Nodup) (hv : v ∈ classes) :
    (classes.flatMap (fun c => List.replicate (f c) c)).count v = f v := by
  induction classes with
  | nil => cases hv
  | cons c cs ih =>
    simp only [List.flatMap_cons, List.count_append]
    rcases List.mem_cons.mp hv with rfl | h2
    · rw [List.count_replicate, if_pos (by simp),
        count_flatMap_replicate_zero cs f v (List.nodup_cons.mp hnd).1]
      simp
    · have hvc : v ≠ c := fun hh =>
        (List.nodup_cons.mp hnd).1 (hh ▸ h2)
      rw [List.count_replicate, if_neg (by simp [hvc.symm]),
        ih (List.nodup_cons.mp hnd).2 h2]
      simp

lemma smoteSynth_snd (X : List (List Val)) (y : List Val) :
    (smoteSynth X y).map Prod.snd =
      (classesOf y).flatMap
        (fun c => List.replicate (maxClassCount y - y.count c) c) := by
  unfold smoteSynth
  rw [List.map_flatMap]
  congr 1
  funext c
  rw [List.map_map]
  have : ((fun p : List Val × Val => p.2) ∘ fun j =>
      ((rowsOfClass X y c).getD (j % (rowsOfClass X y c).length) [], c)) =
      fun _ => c := rfl
  rw [this]
  have h2 := List.map_const (List.range (maxClassCount y - y.count c)) c
  simp only [Function.const, List.length_range] at h2
  exact h2

lemma rowsOfClass_subset (X : List (List Val)) (y : List Val) (c : Val)
    (r : List Val) (h : r ∈ rowsOfClass X y c) : r ∈ X := by
  unfold rowsOfClass at h
  simp only [List.mem_map, List.mem_filter] at h
  obtain ⟨p, ⟨hp, _⟩, hpr⟩ := h
  cases p with
  | mk a b => exact hpr ▸ (List.of_mem_zip hp).1

lemma rowsOfClass_ne_nil (X : List (List Val)) (y : List Val) (c : Val)
    (hlen : X.length = y.length) (hc : c ∈ y) :
    rowsOfClass X y c ≠ [] := by
  induction y generalizing X with
  | nil => cases hc
  | cons b ys ih =>
    cases X with
    | nil => simp at hlen
    | cons x xs =>
      unfold rowsOfClass
      by_cases hbc : b = c
      · subst hbc
        simp [List.zip_cons_cons, List.filter]
      · have hcys : c ∈ ys := by
          rcases List.mem_cons.mp hc with rfl | h2
          · exact absurd rfl hbc
          · exact h2
        have hrec := ih xs (by simpa using hlen) hcys
        unfold rowsOfClass at hrec
        have hbeq : (b == c) = false := by simp [hbc]
        simp only [List.zip_cons_cons, List.filter_cons, hbeq,
          Bool.false_eq_true, if_false]
        exact hrec

lemma getD_mem {α : Type} [Inhabited α] (l : List α) (j : Nat) (d : α)
    (h : l ≠ []) : l.getD (j % l.length) d ∈ l := by
  have hlen : 0 < l.length := List.length_pos.mpr h
  have hj : j % l.length < l.length := Nat.mod_lt _ hlen
  rw [List.getD_eq_getElem _ _ hj]
  exact List.getElem_mem hj

lemma map_getD_zipWith_append (n : Nat) :
    ∀ (xr : List (List Val)) (yr : List Val),
      (∀ x ∈ xr, x.length = n) → xr.length = yr.length →
      (List.zipWith (fun x yv => x ++ [yv]) xr yr).map
        (fun r => r.getD n (Val.vint 0)) = yr := by
  intro xr
  induction xr with
  | nil =>
    intro yr _ hl
    cases yr with
    | nil => rfl
    | cons b bs => simp at hl
  | cons x xs ih =>
    intro yr hlen hl
    cases yr with
    | nil => simp at hl
    | cons b bs =>
      simp only [List.zipWith_cons_cons, List.map_cons]
      have hx : x.length = n := hlen x (by simp)
      have h1 : (x ++ [b]).getD n (Val.vint 0) = b := by
        rw [List.getD_eq_getElem _ _ (by simp [hx])]
        rw [List.getElem_append_right (by simp [hx])]
        simp [hx]
      rw [h1, ih bs (fun z hz => hlen z (by simp [hz])) (by simpa using hl)]

lemma balanced_ok (t b : Table) (h : balanced_data t = .ok b) :
    ∃ X, t.dropColumn "booking_status" = .ok X ∧
      2 ≤ (classesOf (t.colD "booking_status")).length ∧
      b = ⟨X.cols ++ ["booking_status"],
           List.zipWith (fun xr yv => xr ++ [yv])
             (X.rows ++
               (smoteSynth X.rows (t.colD "booking_status")).map Prod.fst)
             (t.colD "booking_status" ++
               (smoteSynth X.rows (t.colD "booking_status")).map
                 Prod.snd)⟩ := by
  unfold balanced_data at h
  rw [except_mapError_ok] at h
  simp only [except_bind_ok, pure_ok] at h
  obtain ⟨X, hX, p, hp, hb⟩ := h
  unfold smoteFitResample at hp
  split at hp
  · cases hp
  · next hcls =>
    cases hp
    exact ⟨X, hX, by omega, hb.symm⟩

lemma colD_constructed (cs : List String) (Xr : List (List Val))
    (yr : List Val) (hcs : "booking_status" ∉ cs)
    (hlen : ∀ x ∈ Xr, x.length = cs.length)
    (hl : Xr.length = yr.length) :
    Table.colD ⟨cs ++ ["booking_status"],
      List.zipWith (fun xr yv => xr ++ [yv]) Xr yr⟩ "booking_status" =
      yr := by
  unfold Table.colD
  rw [if_pos (by simp : ("booking_status" : String) ∈
    cs ++ ["booking_status"])]
  rw [indexOf_append_singleton _ _ hcs]
  exact map_getD_zipWith_append cs.length Xr yr hlen hl

/-- Claim C9: on any well-formed input table, a successful
`balanced_data` call keeps every pre-existing row — the output rows begin
with exactly the input rows in order (each with its label cell moved to
the last position, as the frame is rebuilt with the label column appended
last) followed only by added synthetic rows — and every class present
before balancing occurs afterwards with frequency equal to the largest
pre-balance class count. -/
theorem balanced_data_keeps_rows_and_equalizes (t b : Table)
    (hnd : t.cols.Nodup) (hw : t.wfRows)
    (h : balanced_data t = .ok b) :
    (∃ extra, b.rows =
      t.rows.map (fun r =>
        r.eraseIdx (t.cols.indexOf "booking_status") ++
          [r.getD (t.cols.indexOf "booking_status") (Val.vint 0)]) ++
        extra) ∧
    ∀ v ∈ classesOf (t.colD "booking_status"),
      (b.colD "booking_status").count v =
        maxClassCount (t.colD "booking_status") := by
  obtain ⟨X, hX, hcls, hb⟩ := balanced_ok t b h
  subst hb
  obtain ⟨hbs, hXe⟩ := (dropColumn_ok_iff t "booking_status" X).mp hX
  have hyrows : t.colD "booking_status" =
      t.rows.map (fun r =>
        r.getD (t.cols.indexOf "booking_status") (Val.vint 0)) := by
    unfold Table.colD
    rw [if_pos hbs]
  have hXrows : X.rows =
      t.rows.map (fun r =>
        r.eraseIdx (t.cols.indexOf "booking_status")) := by rw [hXe]
  have hXcols : X.cols =
      t.cols.eraseIdx (t.cols.indexOf "booking_status") := by rw [hXe]
  have hlenXy : X.rows.length = (t.colD "booking_status").length := by
    rw [hXrows, hyrows]
    simp
  have hilt : t.cols.indexOf "booking_status" < t.cols.length :=
    List.indexOf_lt_length.mpr hbs
  have hXlen : ∀ x ∈ X.rows, x.length = X.cols.length := by
    intro x hx
    rw [hXrows] at hx
    simp only [List.mem_map] at hx
    obtain ⟨r, hr, hrx⟩ := hx
    rw [← hrx, List.length_eraseIdx_of_lt (by rw [hw r hr]; exact hilt),
      hw r hr, hXcols, List.length_eraseIdx_of_lt hilt]
  have hsynth_len : ∀ x ∈
      (smoteSynth X.rows (t.colD "booking_status")).map Prod.fst,
      x.length = X.cols.length := by
    intro x hx
    unfold smoteSynth at hx
    simp only [List.map_flatMap, List.mem_flatMap, List.map_map,
      List.mem_map] at hx
    obtain ⟨c, hcm, j, _, hj⟩ := hx
    have hcy : c ∈ t.colD "booking_status" :=
      (mem_classesOf _ c).mp hcm
    have hne := rowsOfClass_ne_nil X.rows (t.colD "booking_status") c
      hlenXy hcy
    have hxm : x ∈ rowsOfClass X.rows (t.colD "booking_status") c := by
      rw [← hj]
      exact getD_mem _ _ _ hne
    exact hXlen x (rowsOfClass_subset _ _ _ _ hxm)
  have hz : List.zipWith (fun xr yv => xr ++ [yv]) X.rows
      (t.colD "booking_status") =
      t.rows.map (fun r =>
        r.eraseIdx (t.cols.indexOf "booking_status") ++
          [r.getD (t.cols.indexOf "booking_status") (Val.vint 0)]) := by
    rw [hXrows, hyrows, List.zipWith_map, zipWith_same]
  constructor
  · refine ⟨List.zipWith (fun xr yv => xr ++ [yv])
      ((smoteSynth X.rows (t.colD "booking_status")).map Prod.fst)
      ((smoteSynth X.rows (t.colD "booking_status")).map Prod.snd), ?_⟩
    show List.zipWith _ (X.rows ++ _) (t.colD "booking_status" ++ _) = _
    rw [List.zipWith_append _ _ _ _ _ hlenXy, hz]
  · intro v hv
    have hbsX : "booking_status" ∉ X.cols := by
      rw [hXcols]
      exact not_mem_eraseIdx_indexOf hnd
    have hbsb : "booking_status" ∈ X.cols ++ ["booking_status"] := by simp
    have hcol := colD_constructed X.cols
      (X.rows ++
        (smoteSynth X.rows (t.colD "booking_status")).map Prod.fst)
      (t.colD "booking_status" ++
        (smoteSynth X.rows (t.colD "booking_status")).map Prod.snd)
      hbsX
      (by
        intro x hx
        rcases List.mem_append.mp hx with h1 | h1
        · exact hXlen x h1
        · exact hsynth_len x h1)
      (by simp [hlenXy])
    rw [hcol, List.count_append]
    have hvy : v ∈ t.colD "booking_status" := (mem_classesOf _ v).mp hv
    rw [smoteSynth_snd, count_flatMap_replicate_self _ _ _
      (nodup_classesOf _) hv]
    exact Nat.add_sub_cancel' (count_le_maxClassCount _ v hvy)

/-- Fixture: an imbalanced two-class table (two rows of class 0, one of
class 1). -/
def tBal : Table :=
  ⟨["f", "booking_status"],
   [[.vint 1, .vint 0], [.vint 2, .vint 0], [.vint 3, .vint 1]]⟩

/-- Fixture: the value of `balanced_data tBal` — the three original rows
followed by one synthetic minority row. -/
def bBal : Table :=
  ⟨["f", "booking_status"],
   [[.vint 1, .vint 0], [.vint 2, .vint 0], [.vint 3, .vint 1],
    [.vint 3, .vint 1]]⟩

/-- Witness for C9 at the concrete imbalanced table `tBal`: the balanced
output keeps the three original rows as a prefix and both classes occur
exactly twice, the pre-balance majority count. -/
theorem balanced_data_keeps_rows_and_equalizes_witness :
    (∃ extra, bBal.rows =
      tBal.rows.map (fun r =>
        r.eraseIdx (tBal.cols.indexOf "booking_status") ++
          [r.getD (tBal.cols.indexOf "booking_status") (Val.vint 0)]) ++
        extra) ∧
    (bBal.colD "booking_status").count (.vint 0) =
      maxClassCount (tBal.colD "booking_status") ∧
    (bBal.colD "booking_status").count (.vint 1) =
      maxClassCount (tBal.colD "booking_status") := by
  have h := balanced_data_keeps_rows_and_equalizes tBal bBal
    (by decide) (by decide) (by decide)
  exact ⟨h.1, h.2 (.vint 0) (by decide), h.2 (.vint 1) (by decide)⟩

lemma map_fst_zip_sublist {α β : Type} (l1 : List α) (l2 : List β) :
    ((l1.zip l2).map Prod.fst).Sublist l1 := by
  induction l1 generalizing l2 with
  | nil => simp
  | cons a as ih =>
    cases l2 with
    | nil => simp
    | cons b bs =>
      simp only [List.zip_cons_cons, List.map_cons]
      exact List.Sublist.cons₂ a (ih bs)

lemma balanced_ok_nodup (t b : Table) (hnd : t.cols.Nodup)
    (h : balanced_data t = .ok b) : b.cols.Nodup := by
  obtain ⟨X, hX, _, hb⟩ := balanced_ok t b h
  obtain ⟨hbs, hXe⟩ := (dropColumn_ok_iff _ _ _).mp hX
  have hbsX : "booking_status" ∉ X.cols := by
    rw [hXe]
    exact not_mem_eraseIdx_indexOf hnd
  subst hb
  show (X.cols ++ ["booking_status"]).Nodup
  rw [List.nodup_append]
  refine ⟨?_, by simp, ?_⟩
  · rw [hXe]
    exact List.Nodup.sublist (List.eraseIdx_sublist _ _) hnd
  · intro a ha hb2
    simp only [List.mem_singleton] at hb2
    subst hb2
    exact hbsX ha

lemma select_feature_ok (cfg : Config) (ext : Oracles) (t u : Table)
    (h : select_feature cfg ext t = .ok u) :
    ∃ X, t.dropColumn "booking_status" = .ok X ∧
      t.select (((((X.cols.zip (ext.importance X.cols X.rows
        (t.colD "booking_status"))).insertionSort
          (fun a b : String × Rat => b.2 ≤ a.2)).take
            cfg.no_of_features).map Prod.fst) ++ ["booking_status"]) =
        .ok u := by
  unfold select_feature at h
  rw [except_mapError_ok] at h
  simp only [except_bind_ok] at h
  exact h

lemma select_feature_ok_nodup (cfg : Config) (ext : Oracles) (t u : Table)
    (hnd : t.cols.Nodup) (h : select_feature cfg ext t = .ok u) :
    u.cols.Nodup := by
  obtain ⟨X, hX, hsel⟩ := select_feature_ok cfg ext t u h
  obtain ⟨hbs, hXe⟩ := (dropColumn_ok_iff _ _ _).mp hX
  have hXnd : X.cols.Nodup := by
    rw [hXe]
    exact List.Nodup.sublist (List.eraseIdx_sublist _ _) hnd
  have hbsX : "booking_status" ∉ X.cols := by
    rw [hXe]
    exact not_mem_eraseIdx_indexOf hnd
  have hfst_sub := map_fst_zip_sublist X.cols
    (ext.importance X.cols X.rows (t.colD "booking_status"))
  have hfst_nodup := List.Nodup.sublist hfst_sub hXnd
  have hperm := List.perm_insertionSort (fun a b : String × Rat => b.2 ≤ a.2)
    (X.cols.zip (ext.importance X.cols X.rows (t.colD "booking_status")))
  have hsorted_nodup := (hperm.map Prod.fst).nodup_iff.mpr hfst_nodup
  have htop_sub : ((((X.cols.zip (ext.importance X.cols X.rows
      (t.colD "booking_status"))).insertionSort
        (fun a b : String × Rat => b.2 ≤ a.2)).take
          cfg.no_of_features).map Prod.fst).Sublist
      (((X.cols.zip (ext.importance X.cols X.rows
        (t.colD "booking_status"))).insertionSort
          (fun a b : String × Rat => b.2 ≤ a.2)).map Prod.fst) :=
    List.Sublist.map _ (List.take_sublist _ _)
  have htop_nodup := List.Nodup.sublist htop_sub hsorted_nodup
  have htop_noBs : "booking_status" ∉
      ((((X.cols.zip (ext.importance X.cols X.rows
        (t.colD "booking_status"))).insertionSort
          (fun a b : String × Rat => b.2 ≤ a.2)).take
            cfg.no_of_features).map Prod.fst) := by
    intro hmem
    have h1 := htop_sub.subset hmem
    have h2 := (hperm.map Prod.fst).subset h1
    exact hbsX (hfst_sub.subset h2)
  rw [select_ok_cols _ _ _ hsel, List.nodup_append]
  refine ⟨htop_nodup, by simp, ?_⟩
  intro a ha hb2
  simp only [List.mem_singleton] at hb2
  subst hb2
  exact htop_noBs ha

lemma select_feature_ok_wfRows (cfg : Config) (ext : Oracles) (t u : Table)
    (h : select_feature cfg ext t = .ok u) : u.wfRows := by
  obtain ⟨X, _, hsel⟩ := select_feature_ok cfg ext t u h
  exact select_ok_wfRows _ _ _ hsel

lemma save_data_eq (t : Table) : save_data t = t := rfl

lemma process_ok (cfg : Config) (ext : Oracles) (tr te : Table)
    (p : Table × Table) (h : process cfg ext tr te = .ok p) :
    ∃ t1 u1 t2 u2 t3 t4,
      preprocess_data cfg ext tr = .ok t1 ∧
      preprocess_data cfg ext te = .ok u1 ∧
      balanced_data t1 = .ok t2 ∧
      balanced_data u1 = .ok u2 ∧
      select_feature cfg ext t2 = .ok t3 ∧
      t3.select t3.cols = .ok t4 ∧
      p = (save_data t3, save_data t4) := by
  unfold process at h
  rw [except_mapError_ok] at h
  simp only [except_bind_ok, pure_ok] at h
  obtain ⟨t1, h1, u1, h2, t2, h3, u2, h4, t3, h5, t4, h6, h7⟩ := h
  exact ⟨t1, u1, t2, u2, t3, t4, h1, h2, h3, h4, h5, h6, h7.symm⟩

lemma process_ok_full (cfg : Config) (ext : Oracles) (tr te : Table)
    (p : Table × Table) (hnd : tr.cols.Nodup)
    (h : process cfg ext tr te = .ok p) :
    ∃ t3, (preprocess_data cfg ext tr >>= fun a =>
        balanced_data a >>= fun b => select_feature cfg ext b) = .ok t3 ∧
      p.1 = t3 ∧ p.2 = t3 ∧
      ∃ u2, (preprocess_data cfg ext te >>= fun u => balanced_data u) =
        .ok u2 := by
  obtain ⟨t1, u1, t2, u2, t3, t4, h1, h2, h3, h4, h5, h6, h7⟩ :=
    process_ok cfg ext tr te p h
  have ht1nd := preprocess_ok_nodup cfg ext tr t1 hnd h1
  have ht2nd := balanced_ok_nodup t1 t2 ht1nd h3
  have ht3nd := select_feature_ok_nodup cfg ext t2 t3 ht2nd h5
  have ht3wf := select_feature_ok_wfRows cfg ext t2 t3 h5
  have hss := select_self t3 ht3nd ht3wf
  rw [hss] at h6
  have ht4 : t4 = t3 := by
    cases h6
    rfl
  subst ht4
  refine ⟨t4, ?_, ?_, ?_, ⟨u2, ?_⟩⟩
  · simp only [except_bind_ok]
    exact ⟨t1, h1, t2, h3, h5⟩
  · rw [h7, save_data_eq]
  · rw [h7, save_data_eq]
  · simp only [except_bind_ok]
    exact ⟨u1, h2, h4⟩

/-- Fixture: the table `process cfgP extP trP teP` saves to both processed
paths — the selected balanced train table. -/
def selP : Table :=
  ⟨["no_of_previous_cancellations", "booking_status"],
   [[.log1p (.vint 0), .vint 0], [.log1p (.vint 1), .vint 1],
    [.log1p (.vint 2), .vint 0], [.log1p (.vint 1), .vint 1]]⟩

/-- Claim C2: whenever `DataProcessor.process` completes, the table saved
to the processed test path equals the table saved to the processed train
path — same rows, same order, same values — because the test variable is
reassigned to `train_df[train_df.columns]` before saving; downstream
evaluation therefore scores the model on training rows. -/
theorem process_saved_test_eq_saved_train (cfg : Config) (ext : Oracles)
    (tr te : Table) (hnd : tr.cols.Nodup) :
    (process cfg ext tr te).map Prod.snd =
      (process cfg ext tr te).map Prod.fst := by
  cases hp : process cfg ext tr te with
  | error e => rfl
  | ok p =>
    obtain ⟨t3, _, h1, h2, _⟩ := process_ok_full cfg ext tr te p hnd hp
    simp [Except.map, h1, h2]

/-- Witness for C2 at the concrete input pair (trP, teP). -/
theorem process_saved_test_eq_saved_train_witness :
    (process cfgP extP trP teP).map Prod.snd =
      (process cfgP extP trP teP).map Prod.fst :=
  process_saved_test_eq_saved_train cfgP extP trP teP (by decide)

/-- Claim C3: the processed test table column list is a literal match
(same names, same order) to the processed train table column list, which
is the output of the one and only feature-selection pass, run on the train
pipeline; the test table never goes through its own selector pass. -/
theorem process_test_cols_match_selected_train (cfg : Config)
    (ext : Oracles) (tr te : Table) :
    ((process cfg ext tr te).map (fun p => p.2.cols) =
      (process cfg ext tr te).map (fun p => p.1.cols)) ∧
    ∀ p, process cfg ext tr te = .ok p →
      ∃ t3, (preprocess_data cfg ext tr >>= fun a =>
          balanced_data a >>= fun b => select_feature cfg ext b) =
            .ok t3 ∧
        p.1 = t3 ∧ p.2.cols = t3.cols := by
  constructor
  · cases hp : process cfg ext tr te with
    | error e => rfl
    | ok p =>
      obtain ⟨t1, u1, t2, u2, t3, t4, h1, h2, h3, h4, h5, h6, h7⟩ :=
        process_ok cfg ext tr te p hp
      have hc := select_ok_cols t3 t3.cols t4 h6
      simp [Except.map, h7, save_data_eq, hc]
  · intro p hp
    obtain ⟨t1, u1, t2, u2, t3, t4, h1, h2, h3, h4, h5, h6, h7⟩ :=
      process_ok cfg ext tr te p hp
    refine ⟨t3, ?_, ?_, ?_⟩
    · simp only [except_bind_ok]
      exact ⟨t1, h1, t2, h3, h5⟩
    · rw [h7, save_data_eq]
    · rw [h7]
      show (save_data t4).cols = t3.cols
      rw [save_data_eq]
      exact select_ok_cols _ _ _ h6

/-- Witness for C3 at the concrete input pair (trP, teP), whose processed
output pair is (selP, selP). -/
theorem process_test_cols_match_selected_train_witness :
    ((process cfgP extP trP teP).map (fun p => p.2.cols) =
      (process cfgP extP trP teP).map (fun p => p.1.cols)) ∧
    ∃ t3, (preprocess_data cfgP extP trP >>= fun a =>
        balanced_data a >>= fun b => select_feature cfgP extP b) =
          .ok t3 ∧
      (selP, selP).1 = t3 ∧ (selP, selP).2.cols = t3.cols := by
  have h := process_test_cols_match_selected_train cfgP extP trP teP
  exact ⟨h.1, h.2 (selP, selP) (by decide)⟩

/-- Claim C1 counterexample: at the concrete input pair (trP, teP) the
saved processed test table has four rows while the preprocessor-only test
table has two, and the saved processed test table is literally the result
of preprocessing, balancing and feature-selecting the train table — so
the processed test output has passed through a balancing (synthetic
oversampling) step, contradicting that the test table passes through the
preprocessor only. -/
theorem process_balances_test_output_cex :
    (process cfgP extP trP teP).map (fun p => p.2.rows.length) =
      .ok 4 ∧
    (preprocess_data cfgP extP teP).map (fun t => t.rows.length) =
      .ok 2 ∧
    (process cfgP extP trP teP).map Prod.snd =
      (preprocess_data cfgP extP trP >>= fun a =>
        balanced_data a >>= fun b => select_feature cfgP extP b) :=
  ⟨by decide, by decide, by decide⟩

/-- Claim C1 (amended): in `process` the balancer runs on both tables — a
successful run implies the preprocess-then-balance chain succeeded on the
test table too — the feature selector runs only on the train pipeline,
and the table saved to the processed test path is the selected balanced
train table itself, not a preprocessor-only test table. -/
theorem process_balancer_on_both_selector_on_train (cfg : Config)
    (ext : Oracles) (tr te : Table) (p : Table × Table)
    (hnd : tr.cols.Nodup) (h : process cfg ext tr te = .ok p) :
    (∃ u2, (preprocess_data cfg ext te >>= fun u => balanced_data u) =
      .ok u2) ∧
    ∃ t3, (preprocess_data cfg ext tr >>= fun a =>
        balanced_data a >>= fun b => select_feature cfg ext b) = .ok t3 ∧
      p.2 = t3 := by
  obtain ⟨t3, hchain, h1, h2, hu⟩ := process_ok_full cfg ext tr te p hnd h
  exact ⟨hu, t3, hchain, h2⟩

/-- Witness for the amended C1 at the concrete input pair (trP, teP). -/
theorem process_balancer_on_both_selector_on_train_witness :
    (∃ u2, (preprocess_data cfgP extP teP >>= fun u => balanced_data u) =
      .ok u2) ∧
    ∃ t3, (preprocess_data cfgP extP trP >>= fun a =>
        balanced_data a >>= fun b => select_feature cfgP extP b) =
          .ok t3 ∧
      (selP, selP).2 = t3 :=
  process_balancer_on_both_selector_on_train cfgP extP trP teP
    (selP, selP) (by decide) (by decide)
